import Mathlib

/-!
Verification of the cleanWithCli scan / selection / deletion core.

Shallow embedding of the Go sources:
  - internal/types/types.go        : FileItem, ScanResult, the message types
  - internal/ui/model.go           : Model (the fields the verified claims touch)
  - internal/ui (commands file)    : performScan aggregation, performCleanItemWithProgress,
                                     performCleanMarkedItemsWithProgress, exploreDirectory stub
  - internal/ui (update file)      : Update - key handling and the CleanCompleteMsg /
                                     BatchCleanCompleteMsg handlers
  - the monolithic main.go         : performScan (mutex-guarded), performCleanItem,
                                     exploreDirectory, calculateDirSize

Modelling conventions:
  - Go int64 sizes/totals become Int (no claim exercises 64-bit overflow).
  - Filesystem paths are component lists (List String); filepath.Dir is dropLast,
    filepath.Base is the last component, filepath.Join appends one component.
    The empty list plays the role of the empty string sentinel in CleanCompleteMsg.Path.
  - The filesystem is an oracle record FS: os.Stat existence, file sizes,
    calculateDirSize results, os.RemoveAll success, and os.ReadDir listings.
  - Go maps keyed by strings become association lists (List (String x ScanResult));
    the pointer update through m.results[cat] becomes updateResults.
    The marked-items map (path -> true) becomes its key list.
  - tea.Cmd values become Cmd data; purely visual fields (spinner, progress floats,
    humanized byte strings, viewport height) are either abstracted (scanMessage gets
    a plain placeholder text) or omitted, as no claim mentions them.
-/

namespace CleanCli

/-- One filesystem entry considered for cleanup (types.FileItem).
The never-populated Children field is omitted; Age is kept as Int. -/
structure FileItem where
  path : List String := []
  name : String := ""
  size : Int := 0
  isDir : Bool := false
  age : Int := 0
deriving Repr, DecidableEq

instance : Inhabited FileItem := ⟨{}⟩

/-- One category's findings (types.ScanResult). -/
structure ScanResult where
  category : String := ""
  items : List FileItem := []
  total : Int := 0
deriving Repr, DecidableEq

instance : Inhabited ScanResult := ⟨{}⟩

/-- One entry of an os.ReadDir listing: entry.Name(), entry.IsDir(),
info.Size(), and whether entry.Info() succeeded. -/
structure DirEntry where
  name : String
  isDir : Bool := false
  size : Int := 0
  infoOk : Bool := true
deriving Repr, DecidableEq

/-- Filesystem oracle: the outcomes of the OS calls the core makes.
pathExists is os.Stat success, statSize is info.Size(), dirSize is what
calculateDirSize returns (best-effort recursive sum), removeOk is whether
os.RemoveAll returns nil, readDir is the os.ReadDir listing (none = error). -/
structure FS where
  pathExists : List String → Bool
  statSize : List String → Int
  dirSize : List String → Int
  removeOk : List String → Bool
  readDir : List String → Option (List DirEntry)

/-- filepath.Dir on an absolute path, in the component-list model. -/
def dirOf (p : List String) : List String := p.dropLast

/-- filepath.Base on an absolute path, in the component-list model. -/
def baseOf (p : List String) : String := p.getLastD ""

/-- filepath.Join dir name, in the component-list model. -/
def joinPath (dir : List String) (n : String) : List String := dir ++ [n]

/-- The messages the asynchronous commands deliver back to Update
(types.CleanCompleteMsg, types.BatchCleanCompleteMsg, types.ScanCompleteMsg,
types.ErrMsg). CleanCompleteMsg.Path being the empty string is modelled by
the empty component list. -/
inductive Msg where
  | cleanComplete (freed : Int) (path : List String)
  | batchCleanComplete (freed : Int) (paths : List (List String))
  | scanComplete (results : List (String × ScanResult)) (totalSize : Int)
  | errMsg (text : String)
deriving Repr, DecidableEq

/-- The commands Update launches (the tea.Cmd values the claims touch). -/
inductive Cmd where
  | explore (dirPath : List String)
  | cleanItem (item : FileItem)
  | cleanMarked (marked : List (List String)) (detail : List FileItem)
deriving Repr, DecidableEq

/-- The application state (ui.Model), restricted to the fields the verified
claims read or write. detailChoice and detailOffset are Go ints and the
handlers compare them against 0, so they stay Int here. -/
structure Model where
  state : String := "menu"
  menuChoice : Int := 0
  results : List (String × ScanResult) := []
  totalSize : Int := 0
  currentCategory : String := ""
  currentPath : List String := []
  detailItems : List FileItem := []
  detailChoice : Int := 0
  detailOffset : Int := 0
  markedItems : List (List String) := []
  scanMessage : String := ""
  err : Option String := none
deriving Repr, DecidableEq

/-! ## Deletion engine -/

/-- performCleanItem (monolithic main.go): stat the path; if it no longer
exists report zero bytes freed; otherwise re-measure the current on-disk size
(calculateDirSize for directories, info.Size() for files), attempt
os.RemoveAll, and report the fresh size on success or an error event on
failure. -/
def performCleanItem (fs : FS) (item : FileItem) : Msg :=
  if !(fs.pathExists item.path) then
    Msg.cleanComplete 0 item.path
  else
    let actualSize : Int :=
      if item.isDir then fs.dirSize item.path
      else if fs.pathExists item.path then fs.statSize item.path else 0
    if fs.removeOk item.path then Msg.cleanComplete actualSize item.path
    else Msg.errMsg "remove failed"

/-- performCleanItemWithProgress (refactored internal/ui): os.RemoveAll the
path and, if it returned nil, report the cached item.Size as freed; on
failure report a CleanCompleteMsg with zero freed (not an error event).
There is no existence check and no re-measurement. -/
def performCleanItemWithProgress (fs : FS) (item : FileItem) : Msg :=
  if fs.removeOk item.path then Msg.cleanComplete item.size item.path
  else Msg.cleanComplete 0 item.path

/-- The first detail item whose Path equals the given path (the inner
for/break loop of performCleanMarkedItemsWithProgress). -/
def findByPath : List FileItem → List String → Option FileItem
  | [], _ => none
  | i :: rest, p => if i.path = p then some i else findByPath rest p

/-- One iteration of the marked-deletion loop: os.RemoveAll the path and,
when it succeeds and the path is found in the detail listing, accumulate that
item's cached size and record the path. -/
def cleanMarkedStep (fs : FS) (detail : List FileItem)
    (acc : Int × List (List String)) (path : List String) :
    Int × List (List String) :=
  if fs.removeOk path then
    match findByPath detail path with
    | some item => (acc.1 + item.size, acc.2 ++ [path])
    | none => acc
  else acc

/-- performCleanMarkedItemsWithProgress: iterate the marked paths, deleting
each; failures are silently skipped; report total freed bytes and the list of
succeeded paths. -/
def performCleanMarkedItemsWithProgress (fs : FS) (marked : List (List String))
    (detail : List FileItem) : Msg :=
  let r := marked.foldl (cleanMarkedStep fs detail) (0, [])
  Msg.batchCleanComplete r.1 r.2

/-- The freed-bytes component of the batch deletion report. -/
def batchFreed (fs : FS) (marked : List (List String))
    (detail : List FileItem) : Int :=
  (marked.foldl (cleanMarkedStep fs detail) (0, [])).1

/-- The succeeded-paths component of the batch deletion report. -/
def batchPaths (fs : FS) (marked : List (List String))
    (detail : List FileItem) : List (List String) :=
  (marked.foldl (cleanMarkedStep fs detail) (0, [])).2

/-- The size one marked path contributes to the batch report: the cached size
of the first matching detail item when removal succeeded and the path is
listed, zero otherwise. -/
def contribOf (fs : FS) (detail : List FileItem) (p : List String) : Int :=
  if fs.removeOk p then
    match findByPath detail p with
    | some item => item.size
    | none => 0
  else 0

/-- Whether one marked path ends up in the succeeded-paths report. -/
def contributes (fs : FS) (detail : List FileItem) (p : List String) : Bool :=
  fs.removeOk p && (findByPath detail p).isSome

/-- Per-item Bool form of "path marked in S and removal succeeded". -/
def pathInOk (fs : FS) (S : List (List String)) (i : FileItem) : Bool :=
  decide (i.path ∈ S) && fs.removeOk i.path

/-- Per-item Bool form of "path equals s and removal succeeded". -/
def pathIsOk (fs : FS) (s : List String) (i : FileItem) : Bool :=
  decide (i.path = s) && fs.removeOk i.path

/-! ## Scan orchestrator -/

/-- One probe completion merged into the shared accumulator (the body of the
per-probe goroutine, serialized: in main.go every such merge runs under
scanner.mu): categories with zero total are skipped, positive ones are added
to the results map and their total to the grand total. -/
def scanStep (acc : List (String × ScanResult) × Int)
    (probe : String × ScanResult) : List (String × ScanResult) × Int :=
  if 0 < probe.2.total then (acc.1 ++ [probe], acc.2 + probe.2.total) else acc

/-- performScan aggregation: every probe's result merged into the snapshot
(one serialized merge per probe), starting from the empty map and zero
grand total. -/
def aggregateScan (probes : List (String × ScanResult)) :
    List (String × ScanResult) × Int :=
  probes.foldl scanStep ([], 0)

/-- The ScanCompleteMsg performScan delivers. -/
def performScanMsg (probes : List (String × ScanResult)) : Msg :=
  Msg.scanComplete (aggregateScan probes).1 (aggregateScan probes).2

/-! ## Result/Selection Model: the Update handlers the claims touch -/

/-- Lookup in the results map (Go m.results[category], comma-ok form). -/
def lookupCat : List (String × ScanResult) → String → Option ScanResult
  | [], _ => none
  | nr :: rest, c => if nr.1 = c then some nr.2 else lookupCat rest c

/-- The in-place mutation through the map entry pointer
(result.Items = ...; result.Total -= ...): update the entry stored under the
category key, leave everything else alone; a missing key changes nothing. -/
def updateResults : List (String × ScanResult) → String →
    (ScanResult → ScanResult) → List (String × ScanResult)
  | [], _, _ => []
  | nr :: rest, cat, f =>
    (if nr.1 = cat then (nr.1, f nr.2) else nr) :: updateResults rest cat f

/-- The removal loop of the CleanCompleteMsg/BatchCleanCompleteMsg handlers:
keep exactly the items whose path is not among the deleted paths. -/
def removeDeleted (items : List FileItem) (deletedPaths : List (List String)) :
    List FileItem :=
  items.filter (fun item => !(decide (item.path ∈ deletedPaths)))

/-- The category entry shown at the root of the detail view
(Go m.results[m.currentCategory].Items; missing key modelled by the empty
default where Go would fault on the nil pointer). -/
def activeResult (m : Model) : ScanResult :=
  (lookupCat m.results m.currentCategory).getD default

/-- detailItems indexing (Go m.detailItems[m.detailChoice]; the handlers only
index after checking the upper bound, and a negative index would fault in Go). -/
def itemAt (items : List FileItem) (i : Int) : FileItem :=
  items.getD i.toNat default

/-- The BatchCleanCompleteMsg handler of Update: only applied while the state
is still "cleaning"; removes the reported paths from the detail listing, the
marked set and the active category's item list, subtracts the reported freed
bytes from the category total and the grand total, clamps cursor and scroll
offset, and returns to the detail view. -/
def handleBatchCleanComplete (m : Model) (freed : Int)
    (paths : List (List String)) : Model :=
  if m.state = "cleaning" then
    let newItems := removeDeleted m.detailItems paths
    let newMarked := m.markedItems.filter (fun p => !(decide (p ∈ paths)))
    let choice0 : Int :=
      if (newItems.length : Int) ≤ m.detailChoice ∧ 0 < newItems.length
      then (newItems.length : Int) - 1 else m.detailChoice
    let choice : Int := if choice0 < 0 then 0 else choice0
    let offset : Int :=
      if 0 < m.detailOffset ∧ choice < m.detailOffset then choice
      else m.detailOffset
    let newResults :=
      if m.currentCategory ≠ "" then
        updateResults m.results m.currentCategory (fun r =>
          { r with items := removeDeleted r.items paths,
                   total := r.total - freed })
      else m.results
    { m with detailItems := newItems, markedItems := newMarked,
             detailChoice := choice, detailOffset := offset,
             results := newResults, totalSize := m.totalSize - freed,
             state := "detail", scanMessage := "deleted items" }
  else m

/-- The CleanCompleteMsg handler of Update: only applied while the state is
still "cleaning"; with a non-empty path it removes that path from the detail
listing, the marked set and the active category's item list, subtracts the
reported freed bytes from the category total and the grand total, and returns
to the detail view; with the empty sentinel path it only subtracts the freed
bytes from the grand total and returns to the results view. -/
def handleCleanComplete (m : Model) (freed : Int) (path : List String) : Model :=
  if m.state = "cleaning" then
    if path ≠ [] then
      let newItems := m.detailItems.filter (fun item => !(decide (item.path = path)))
      let newMarked := m.markedItems.filter (fun p => !(decide (p = path)))
      let choice0 : Int :=
        if (newItems.length : Int) ≤ m.detailChoice ∧ 0 < newItems.length
        then (newItems.length : Int) - 1 else m.detailChoice
      let choice : Int := if choice0 < 0 then 0 else choice0
      let offset : Int :=
        if 0 < m.detailOffset ∧ choice < m.detailOffset then choice
        else m.detailOffset
      let newResults :=
        if m.currentCategory ≠ "" then
          updateResults m.results m.currentCategory (fun r =>
            { r with items := r.items.filter (fun item => !(decide (item.path = path))),
                     total := r.total - freed })
        else m.results
      { m with detailItems := newItems, markedItems := newMarked,
               detailChoice := choice, detailOffset := offset,
               results := newResults, totalSize := m.totalSize - freed,
               state := "detail", scanMessage := "deleted item" }
    else
      { m with totalSize := m.totalSize - freed, state := "results" }
  else m

/-- markAll (the Shift+A handler body): set every current detail item's path
in the marked map (set insertion: an already-present key stays single). -/
def markAll (marked : List (List String)) (items : List FileItem) :
    List (List String) :=
  items.foldl (fun acc item =>
    if item.path ∈ acc then acc else acc ++ [item.path]) marked

/-- The KeyMsg cases of Update that the claims exercise: backspace/delete
(go up one breadcrumb level), esc, space (toggle mark), Shift+A (mark all),
Shift+N (clear marks), Shift+D (delete marked), c (clean selected item).
Navigation-only keys (cursor movement, paging, enter, quit) are outside every
claim and fall to the unchanged default. -/
def updateKey (m : Model) (key : String) : Model × Option Cmd :=
  if key = "backspace" ∨ key = "delete" then
    if m.state = "detail" ∧ 1 < m.currentPath.length then
      let newPath := m.currentPath.dropLast
      if newPath.length = 1 then
        ({ m with currentPath := newPath,
                  detailItems := (activeResult m).items,
                  detailChoice := 0, detailOffset := 0 }, none)
      else
        ({ m with currentPath := newPath },
         some (Cmd.explore (dirOf ((m.detailItems.headD default).path))))
    else (m, none)
  else if key = "esc" then
    if m.state = "detail" then
      ({ m with state := "results", detailChoice := 0, markedItems := [] }, none)
    else if m.state = "results" ∨ m.state = "cleaning" ∨ m.state = "diskusage" then
      ({ m with state := "menu", menuChoice := 0 }, none)
    else (m, none)
  else if key = " " then
    if m.state = "detail" ∧ m.detailChoice < (m.detailItems.length : Int) then
      let item := itemAt m.detailItems m.detailChoice
      if item.path ∈ m.markedItems then
        ({ m with markedItems := m.markedItems.filter (fun p => !(decide (p = item.path))) },
         none)
      else
        ({ m with markedItems := m.markedItems ++ [item.path] }, none)
    else (m, none)
  else if key = "A" then
    if m.state = "detail" then
      ({ m with markedItems := markAll m.markedItems m.detailItems }, none)
    else (m, none)
  else if key = "N" then
    if m.state = "detail" then
      ({ m with markedItems := [] }, none)
    else (m, none)
  else if key = "D" then
    if m.state = "detail" ∧ 0 < m.markedItems.length then
      ({ m with state := "cleaning", scanMessage := "cleaning marked items" },
       some (Cmd.cleanMarked m.markedItems m.detailItems))
    else (m, none)
  else if key = "c" then
    if m.state = "detail" ∧ m.detailChoice < (m.detailItems.length : Int) then
      let item := itemAt m.detailItems m.detailChoice
      ({ m with state := "cleaning", scanMessage := "cleaning item" },
       some (Cmd.cleanItem item))
    else (m, none)
  else (m, none)

/-! ## Directory exploration -/

/-- One ReadDir entry turned into a FileItem by exploreDirectory: the child's
size is calculateDirSize for subdirectories and info.Size() for files. -/
def entryToItem (fs : FS) (dirPath : List String) (e : DirEntry) : FileItem :=
  let path := joinPath dirPath e.name
  { path := path, name := e.name,
    size := if e.isDir then fs.dirSize path else e.size,
    isDir := e.isDir }

/-- Descending insertion by size (sort.Slice with Size-greater less-than:
the resulting order is non-increasing in Size; ties keep an arbitrary
permitted order). -/
def insertBySize (x : FileItem) : List FileItem → List FileItem
  | [] => [x]
  | y :: ys => if y.size < x.size then x :: y :: ys else y :: insertBySize x ys

/-- The sort.Slice call of exploreDirectory: sort the children by size
descending. -/
def sortBySizeDesc : List FileItem → List FileItem
  | [] => []
  | x :: xs => insertBySize x (sortBySizeDesc xs)

/-- exploreDirectory (monolithic main.go): list the immediate children of the
directory, skipping entries whose Info() errors; compute each child's size
(recursively for subdirectories, directly for files); sort descending by
size; replace the detail listing, append the directory's base name to the
breadcrumb, and reset cursor and scroll. A ReadDir failure becomes an error
event and changes nothing else. -/
def exploreDirectory (fs : FS) (m : Model) (dirPath : List String) : Model :=
  match fs.readDir dirPath with
  | none => { m with err := some "read dir failed" }
  | some entries =>
    let items := entries.filterMap (fun e =>
      if e.infoOk then some (entryToItem fs dirPath e) else none)
    { m with detailItems := sortBySizeDesc items,
             currentPath := m.currentPath ++ [baseOf dirPath],
             detailChoice := 0, detailOffset := 0 }

/-- exploreDirectory (refactored internal/ui): a stub that only returns the
error event "directory exploration not implemented" and never touches the
model. -/
def exploreDirectoryStub (_m : Model) (_dirPath : List String) : Msg :=
  Msg.errMsg "directory exploration not implemented"

/-- One complete go-up interaction: the backspace key handler, composed with
the exploreDirectory reload whenever the handler launched one (the intended
data flow of the reload command). -/
def goUpStep (fs : FS) (m : Model) : Model :=
  match updateKey m "backspace" with
  | (m', some (Cmd.explore dir)) => exploreDirectory fs m' dir
  | (m', _) => m'

/-! ## Invariant vocabulary -/

/-- Every stored category total equals the sum of its items' sizes. -/
def categoryConsistent (m : Model) : Prop :=
  ∀ nr ∈ m.results, nr.2.total = (nr.2.items.map FileItem.size).sum

/-- The grand total equals the sum of all stored category totals. -/
def grandConsistent (m : Model) : Prop :=
  m.totalSize = (m.results.map (fun nr => nr.2.total)).sum

/-- None of the given paths remains in the detail listing, the active
category's item list, or the selection set. -/
def noDeletedRemains (m : Model) (paths : List (List String)) : Prop :=
  ∀ p ∈ paths,
    p ∉ m.detailItems.map FileItem.path ∧
    p ∉ (activeResult m).items.map FileItem.path ∧
    p ∉ m.markedItems

instance (m : Model) : Decidable (categoryConsistent m) := by
  unfold categoryConsistent; infer_instance

instance (m : Model) : Decidable (grandConsistent m) := by
  unfold grandConsistent; infer_instance

instance (m : Model) (paths : List (List String)) :
    Decidable (noDeletedRemains m paths) := by
  unfold noDeletedRemains; infer_instance

/-! ## Concrete fixtures -/

/-- A 100-byte cached item whose on-disk path is already gone. -/
def itemGone : FileItem := { path := ["tmp", "gone"], name := "gone", size := 100 }

/-- Filesystem where nothing exists any more; os.RemoveAll of a missing path
returns nil, so removal "succeeds". -/
def fsGone : FS :=
  { pathExists := fun _ => false, statSize := fun _ => 0, dirSize := fun _ => 0,
    removeOk := fun _ => true, readDir := fun _ => none }

/-- A directory item whose cached scan-time size (100) is stale: the current
on-disk size is 70. -/
def itemStale : FileItem :=
  { path := ["p", "d"], name := "d", size := 100, isDir := true }

/-- Filesystem where itemStale exists, currently measures 70 bytes, and
removal succeeds. -/
def fsLive : FS :=
  { pathExists := fun _ => true, statSize := fun _ => 70,
    dirSize := fun p => if p = ["p", "d"] then 70 else 0,
    removeOk := fun _ => true, readDir := fun _ => none }

/-- Filesystem where itemStale exists and measures 70 bytes but removal
fails (permission denied / busy). -/
def fsBusy : FS :=
  { pathExists := fun _ => true, statSize := fun _ => 70,
    dirSize := fun p => if p = ["p", "d"] then 70 else 0,
    removeOk := fun _ => false, readDir := fun _ => none }

/-- The 10-byte item of the single-category fixtures. -/
def itemP : FileItem := { path := ["c", "p"], name := "p", size := 10 }

/-- Model mid-deletion: one category holding one 10-byte item, consistent
totals, the detail view at the category root. -/
def mC1 : Model :=
  { state := "cleaning", currentCategory := "Cache Files",
    currentPath := ["Cache Files"],
    results := [("Cache Files",
      { category := "Cache Files", items := [itemP], total := 10 })],
    totalSize := 10, detailItems := [itemP] }

/-- Probe results of the C5 scenario: A finds 100 bytes, B finds nothing,
C finds 50 bytes. -/
def probeA : String × ScanResult :=
  ("A", { category := "A",
          items := [{ path := ["a", "x"], name := "x", size := 100 }],
          total := 100 })

/-- The empty probe of the C5 scenario. -/
def probeB : String × ScanResult := ("B", { category := "B", items := [], total := 0 })

/-- The 50-byte probe of the C5 scenario. -/
def probeC : String × ScanResult :=
  ("C", { category := "C",
          items := [{ path := ["c", "y"], name := "y", size := 50 }],
          total := 50 })

/-- The probe that finds nothing in the C6 scenario. -/
def probeEmpty : String × ScanResult :=
  ("Trash", { category := "Trash", items := [], total := 0 })

/-- The probe that finds 3 items totaling 500 bytes in the C6 scenario. -/
def probeFull : String × ScanResult :=
  ("Cache Files",
   { category := "Cache Files",
     items := [{ path := ["c", "1"], name := "1", size := 200 },
               { path := ["c", "2"], name := "2", size := 200 },
               { path := ["c", "3"], name := "3", size := 100 }],
     total := 500 })

/-- Filesystem of the C8 scenario: a directory holding one 30-byte file and
one subdirectory summing 70 bytes. -/
def fs8 : FS :=
  { pathExists := fun _ => true, statSize := fun _ => 0,
    dirSize := fun p => if p = ["h", "proj", "sub"] then 70 else 0,
    removeOk := fun _ => true,
    readDir := fun d =>
      if d = ["h", "proj"] then
        some [{ name := "f.txt", isDir := false, size := 30 },
              { name := "sub", isDir := true, size := 0 }]
      else none }

/-- Detail view sitting at a category root, about to explore. -/
def m8 : Model :=
  { state := "detail", currentCategory := "Cache Files",
    currentPath := ["Cache Files"], detailItems := [] }

/-- The category root items of the go-up fixtures. -/
def rootItems9 : List FileItem :=
  [{ path := ["a", "b"], name := "b", size := 100, isDir := true }]

/-- Filesystem of the go-up fixtures: /a/b/c holds one 30-byte file x. -/
def fs9 : FS :=
  { pathExists := fun _ => true, statSize := fun _ => 0,
    dirSize := fun _ => 0, removeOk := fun _ => true,
    readDir := fun d =>
      if d = ["a", "b", "c"] then
        some [{ name := "x", isDir := false, size := 30 }]
      else none }

/-- Detail view at breadcrumb depth 1 (category root). -/
def m9root : Model :=
  { state := "detail", currentCategory := "Node Modules",
    currentPath := ["Node Modules"],
    results := [("Node Modules",
      { category := "Node Modules", items := rootItems9, total := 100 })],
    totalSize := 100, detailItems := rootItems9 }

/-- Detail view at breadcrumb depth 2, listing the children of /a/b. -/
def m9b : Model :=
  { m9root with
    currentPath := ["Node Modules", "b"],
    detailItems := [{ path := ["a", "b", "c"], name := "c", size := 70, isDir := true }] }

/-- Detail view at breadcrumb depth 3, listing the children of /a/b/c. -/
def m9 : Model :=
  { m9root with
    currentPath := ["Node Modules", "b", "c"],
    detailItems := [{ path := ["a", "b", "c", "x"], name := "x", size := 30 }] }

/-- A menu-state model carrying a leftover mark (for the C10 witness). -/
def mMenu10 : Model := { state := "menu", markedItems := [["x"]] }

/-- A detail-state model with an empty selection set (for the C10 witness). -/
def mDetail10 : Model := { state := "detail", markedItems := [] }

/-- A menu-state model (for the C7 witness). -/
def mMenu7 : Model := { state := "menu", totalSize := 50 }

/-- The detail listing of the spec scenario: three items of 10, 20 and 5
bytes. -/
def listing2 : List FileItem :=
  [{ path := ["w", "p1"], name := "p1", size := 10 },
   { path := ["w", "p2"], name := "p2", size := 20 },
   { path := ["w", "p3"], name := "p3", size := 5 }]

/-- A filesystem where every removal succeeds. -/
def fsOk : FS :=
  { pathExists := fun _ => true, statSize := fun _ => 0, dirSize := fun _ => 0,
    removeOk := fun _ => true, readDir := fun _ => none }

/-- The consistent three-item category of the C1 witness. -/
def rAm : ScanResult :=
  { category := "Cache Files",
    items := [{ path := ["c", "p1"], name := "p1", size := 10 },
              { path := ["c", "p2"], name := "p2", size := 20 },
              { path := ["c", "p3"], name := "p3", size := 5 }],
    total := 35 }

/-- Model mid-deletion with the rAm category open at its root and p2 marked. -/
def mAm : Model :=
  { state := "cleaning", currentCategory := "Cache Files",
    currentPath := ["Cache Files"],
    results := [("Cache Files", rAm)], totalSize := 35,
    detailItems := rAm.items, markedItems := [["c", "p2"]] }

/-! ## Claim theorems: closed evaluations -/

/-- C3 (code_bug evidence): for an item whose path no longer exists, the
monolithic performCleanItem reports zero bytes freed and no error, and does
so again on a repeated call; but the refactored performCleanItemWithProgress
on the very same already-deleted path reports the stale cached 100 bytes as
freed, because os.RemoveAll of a missing path returns nil and there is no
existence check. -/
theorem c3_already_deleted_eval :
    performCleanItem fsGone itemGone = Msg.cleanComplete 0 ["tmp", "gone"] ∧
    performCleanItem fsGone itemGone = Msg.cleanComplete 0 ["tmp", "gone"] ∧
    performCleanItemWithProgress fsGone itemGone
      = Msg.cleanComplete 100 ["tmp", "gone"] ∧
    (100 : Int) ≠ 0 := by
  refine ⟨by decide, by decide, by decide, by decide⟩

/-- C4 (code_bug evidence): for an existing directory item with cached size
100 but current on-disk size 70, the monolithic performCleanItem re-measures
and reports the fresh 70 on success and an error event (freeing nothing) on
failure; the refactored performCleanItemWithProgress instead reports the
stale cached 100 on success, and on failure reports a non-error completion
that still carries the path. -/
theorem c4_deleteOne_eval :
    performCleanItem fsLive itemStale = Msg.cleanComplete 70 ["p", "d"] ∧
    performCleanItem fsBusy itemStale = Msg.errMsg "remove failed" ∧
    performCleanItemWithProgress fsLive itemStale
      = Msg.cleanComplete 100 ["p", "d"] ∧
    performCleanItemWithProgress fsBusy itemStale
      = Msg.cleanComplete 0 ["p", "d"] := by
  refine ⟨by decide, by decide, by decide, by decide⟩

/-- C6 (code_bug evidence, functional part): under the serialized (mutex
-guarded) aggregation of the monolithic performScan, the C6 scenario gives
the same snapshot whichever probe finishes first: exactly one category with
total 500. -/
theorem c6_order_invariance_eval :
    aggregateScan [probeEmpty, probeFull] = ([probeFull], 500) ∧
    aggregateScan [probeFull, probeEmpty] = ([probeFull], 500) := by
  refine ⟨by decide, by decide⟩

/-- C1 (counterexample): a failed single-item deletion reports freed = 0
with the path still attached (exactly what performCleanItemWithProgress
returns); the handler then removes the 10-byte item from the category's list
while subtracting nothing from its total, so after this applyDeletion the
stored total (10) no longer equals the sum of the remaining items' sizes (0). -/
theorem c1_counterexample :
    performCleanItemWithProgress fsBusy itemP = Msg.cleanComplete 0 ["c", "p"] ∧
    categoryConsistent mC1 ∧ grandConsistent mC1 ∧
    ¬ categoryConsistent (handleCleanComplete mC1 0 ["c", "p"]) := by
  refine ⟨by decide, by decide, by decide, by decide⟩

/-- C7 (counterexample): pressing escape during the cleaning wait returns to
the menu, and a deletion completion arriving afterwards is dropped entirely
(the model is returned unchanged, the item and the totals are not touched)
even though its category is still present in the results. -/
theorem c7_counterexample :
    ((updateKey mC1 "esc").1).state = "menu" ∧
    handleCleanComplete ((updateKey mC1 "esc").1) 10 ["c", "p"]
      = (updateKey mC1 "esc").1 ∧
    handleBatchCleanComplete ((updateKey mC1 "esc").1) 10 [["c", "p"]]
      = (updateKey mC1 "esc").1 ∧
    lookupCat ((updateKey mC1 "esc").1).results "Cache Files"
      = some { category := "Cache Files", items := [itemP], total := 10 } := by
  refine ⟨by decide, by decide, by decide, by decide⟩

/-- C8 (code_bug evidence): exploring a directory holding one 30-byte file
and one subdirectory summing 70 bytes with the monolithic exploreDirectory
replaces the detail listing with exactly the two children sorted by size
descending and appends the directory's base name to the breadcrumb; the
refactored exploreDirectory is a stub that only returns a not-implemented
error event and never touches the listing. -/
theorem c8_explore_eval :
    (exploreDirectory fs8 m8 ["h", "proj"]).detailItems
      = [{ path := ["h", "proj", "sub"], name := "sub", size := 70, isDir := true },
         { path := ["h", "proj", "f.txt"], name := "f.txt", size := 30, isDir := false }] ∧
    (exploreDirectory fs8 m8 ["h", "proj"]).currentPath
      = ["Cache Files", "proj"] ∧
    (exploreDirectory fs8 m8 ["h", "proj"]).detailChoice = 0 ∧
    exploreDirectoryStub m8 ["h", "proj"]
      = Msg.errMsg "directory exploration not implemented" := by
  refine ⟨by decide, by decide, by decide, by decide⟩

/-- C9 (code_bug evidence): go-up at breadcrumb depth 1 is a no-op; from
depth 2 it reduces the depth to 1 and restores the category root items; but
from depth 3 the handler passes filepath.Dir of the first listed child -
which is the directory currently shown, not its parent - to the reload, and
the reload appends that directory's base name back, so the breadcrumb ends at
depth 3 again (the same path it started with) instead of depth 2. -/
theorem c9_goUp_eval :
    updateKey m9root "backspace" = (m9root, none) ∧
    (goUpStep fs9 m9b).currentPath = ["Node Modules"] ∧
    (goUpStep fs9 m9b).detailItems = rootItems9 ∧
    (goUpStep fs9 m9).currentPath = ["Node Modules", "b", "c"] ∧
    (goUpStep fs9 m9).currentPath.length ≠ 2 := by
  refine ⟨by decide, by decide, by decide, by decide, by decide⟩

/-! ## Scan aggregation: general characterization -/

/-- Folding scanStep from any accumulator appends exactly the positive-total
probes and adds exactly their totals. -/
theorem scan_foldl_aux :
    ∀ (probes : List (String × ScanResult)) (acc : List (String × ScanResult) × Int),
      probes.foldl scanStep acc
        = (acc.1 ++ probes.filter (fun nr => decide (0 < nr.2.total)),
           acc.2 + ((probes.filter (fun nr => decide (0 < nr.2.total))).map
             (fun nr => nr.2.total)).sum)
  | [], acc => by simp
  | p :: ps, acc => by
    by_cases h : 0 < p.2.total <;>
      simp [List.foldl_cons, scanStep, h, scan_foldl_aux ps, List.filter_cons,
        List.append_assoc, add_assoc]

/-- C5: the completed snapshot contains exactly the probe results whose total
is strictly positive, in completion order, and the grand total equals the sum
of the included categories' totals; in particular the probe set
A=100, B=0, C=50 yields the snapshot holding only A and C with grand total
150. -/
theorem c5_snapshot_positive (probes : List (String × ScanResult)) :
    (aggregateScan probes).1 = probes.filter (fun nr => decide (0 < nr.2.total)) ∧
    (aggregateScan probes).2
      = (((aggregateScan probes).1).map (fun nr => nr.2.total)).sum ∧
    aggregateScan [probeA, probeB, probeC] = ([probeA, probeC], 150) := by
  refine ⟨?_, ?_, by decide⟩ <;> simp [aggregateScan, scan_foldl_aux]

/-! ## Marking keys outside the detail view -/

/-- C10: toggle-mark (space), mark-all (A), clear-marks (N), delete-marked
(D) and clean-selected (c) leave the model unchanged and launch no command
whenever the current state is not the detail view; delete-marked is also a
no-op in detail view when the selection set is empty. -/
theorem c10_marking_keys (m : Model) (k : String)
    (hk : k = " " ∨ k = "A" ∨ k = "N" ∨ k = "D" ∨ k = "c") :
    (m.state ≠ "detail" → updateKey m k = (m, none)) ∧
    (k = "D" → m.state = "detail" → m.markedItems = [] →
      updateKey m k = (m, none)) := by
  constructor
  · intro hs
    rcases hk with rfl | rfl | rfl | rfl | rfl <;> simp [updateKey, hs]
  · rintro rfl hs hm
    simp [updateKey, hs, hm]

/-- C10 witness: space in the menu state and delete-marked with an empty
selection are both no-ops. -/
theorem c10_marking_keys_witness :
    updateKey mMenu10 " " = (mMenu10, none) ∧
    updateKey mDetail10 "D" = (mDetail10, none) :=
  ⟨(c10_marking_keys mMenu10 " " (Or.inl rfl)).1 (by decide),
   (c10_marking_keys mDetail10 "D"
      (Or.inr (Or.inr (Or.inr (Or.inl rfl))))).2 rfl rfl rfl⟩

/-! ## Dropped completions outside the cleaning state -/

/-- C7 (amended): a deletion completion is applied only while the state is
still "cleaning"; if the user navigated elsewhere during the wait (for
example escape back to the menu), both the single-item and the batch
completion handlers return the model unchanged - the completion is dropped,
not applied by category identity. -/
theorem c7_amended (m : Model) (freed : Int) (p : List String)
    (paths : List (List String)) (h : m.state ≠ "cleaning") :
    handleCleanComplete m freed p = m ∧
    handleBatchCleanComplete m freed paths = m := by
  constructor <;> simp [handleCleanComplete, handleBatchCleanComplete, h]

/-- C7 witness: completions reaching a menu-state model change nothing. -/
theorem c7_amended_witness :
    mMenu7.state ≠ "cleaning" ∧
    handleCleanComplete mMenu7 5 ["x"] = mMenu7 ∧
    handleBatchCleanComplete mMenu7 5 [["x"]] = mMenu7 :=
  ⟨by decide,
   (c7_amended mMenu7 5 ["x"] [["x"]] (by decide)).1,
   (c7_amended mMenu7 5 ["x"] [["x"]] (by decide)).2⟩

/-! ## Batch deletion: general characterization -/

/-- Folding the marked-deletion loop from any accumulator adds exactly the
per-path contributions and appends exactly the contributing paths. -/
theorem cleanMarked_foldl (fs : FS) (detail : List FileItem) :
    ∀ (S : List (List String)) (a : Int) (P : List (List String)),
      S.foldl (cleanMarkedStep fs detail) (a, P)
        = (a + (S.map (contribOf fs detail)).sum,
           P ++ S.filter (contributes fs detail))
  | [], a, P => by simp
  | s :: S, a, P => by
    by_cases hok : fs.removeOk s
    · cases hfind : findByPath detail s with
      | some item =>
        simp [List.foldl_cons, cleanMarkedStep, hok, hfind,
          cleanMarked_foldl fs detail S, contribOf, contributes,
          List.filter_cons, List.append_assoc, add_assoc]
      | none =>
        simp [List.foldl_cons, cleanMarkedStep, hok, hfind,
          cleanMarked_foldl fs detail S, contribOf, contributes,
          List.filter_cons]
    · simp [List.foldl_cons, cleanMarkedStep, hok,
        cleanMarked_foldl fs detail S, contribOf, contributes,
        List.filter_cons]

/-- The freed-bytes report is the sum of the per-path contributions. -/
theorem batchFreed_eq (fs : FS) (S : List (List String)) (I : List FileItem) :
    batchFreed fs S I = (S.map (contribOf fs I)).sum := by
  simp [batchFreed, cleanMarked_foldl]

/-- The succeeded-paths report keeps exactly the contributing marked paths,
in marked order. -/
theorem batchPaths_eq (fs : FS) (S : List (List String)) (I : List FileItem) :
    batchPaths fs S I = S.filter (contributes fs I) := by
  simp [batchPaths, cleanMarked_foldl]

/-- findByPath succeeds exactly when some listed item has the path. -/
theorem findByPath_isSome (l : List FileItem) (p : List String) :
    (findByPath l p).isSome = true ↔ ∃ i ∈ l, i.path = p := by
  induction l with
  | nil => simp [findByPath]
  | cons i rest ih =>
    by_cases h : i.path = p
    · simp only [findByPath, if_pos h, Option.isSome_some, true_iff]
      exact ⟨i, List.mem_cons_self i rest, h⟩
    · simp only [findByPath, if_neg h, ih]
      constructor
      · rintro ⟨j, hj, hjp⟩; exact ⟨j, List.mem_cons_of_mem i hj, hjp⟩
      · rintro ⟨j, hj, hjp⟩
        rcases List.mem_cons.1 hj with rfl | hj'
        · exact absurd hjp h
        · exact ⟨j, hj', hjp⟩

/-- A path is reported as deleted exactly when it was marked, its removal
succeeded, and it occurred in the detail listing. -/
theorem mem_batchPaths (fs : FS) (S : List (List String)) (I : List FileItem)
    (p : List String) :
    p ∈ batchPaths fs S I
      ↔ p ∈ S ∧ fs.removeOk p = true ∧ ∃ i ∈ I, i.path = p := by
  rw [batchPaths_eq, List.mem_filter]
  simp [contributes, Bool.and_eq_true, findByPath_isSome, and_assoc]

/-- The new detail listing after applying the batch report: exactly the old
items whose path was not both marked and successfully removed. -/
theorem removeDeleted_batchPaths (fs : FS) (S : List (List String))
    (I : List FileItem) :
    removeDeleted I (batchPaths fs S I)
      = I.filter (fun i => !(decide (i.path ∈ S ∧ fs.removeOk i.path = true))) := by
  unfold removeDeleted
  apply List.filter_congr
  intro i hi
  congr 1
  rw [decide_eq_decide, mem_batchPaths]
  constructor
  · rintro ⟨h1, h2, _⟩; exact ⟨h1, h2⟩
  · rintro ⟨h1, h2⟩; exact ⟨h1, h2, ⟨i, hi, rfl⟩⟩

/-- The decidable conjunction and its Bool form agree. -/
theorem pathInOk_decide (fs : FS) (S : List (List String)) (i : FileItem) :
    decide (i.path ∈ S ∧ fs.removeOk i.path = true) = pathInOk fs S i := by
  by_cases h1 : i.path ∈ S <;> cases h2 : fs.removeOk i.path <;>
    simp [pathInOk, h1, h2]

/-- Membership in a cons splits the Bool predicate into head and tail parts. -/
theorem pathInOk_cons (fs : FS) (s : List String) (S : List (List String))
    (i : FileItem) :
    pathInOk fs (s :: S) i = (pathIsOk fs s i || pathInOk fs S i) := by
  by_cases h1 : i.path = s <;> by_cases h2 : i.path ∈ S <;>
    simp [pathInOk, pathIsOk, h1, h2]

/-- Filtering by an everywhere-false predicate yields the empty list. -/
theorem filter_false_nil (p : FileItem → Bool) (hp : ∀ i, p i = false) :
    ∀ l : List FileItem, l.filter p = []
  | [] => rfl
  | i :: l => by simp [List.filter_cons, hp i, filter_false_nil p hp l]

/-- Summing over a filter by a disjunction of incompatible Bool predicates
splits into the two filtered sums. -/
theorem sum_filter_orb (f : FileItem → Int) (p q : FileItem → Bool) :
    ∀ (l : List FileItem), (∀ i ∈ l, ¬(p i = true ∧ q i = true)) →
      ((l.filter (fun i => p i || q i)).map f).sum
        = ((l.filter p).map f).sum + ((l.filter q).map f).sum
  | [], _ => by simp
  | i :: l, h => by
    have hi := h i (List.mem_cons_self i l)
    have ih := sum_filter_orb f p q l (fun j hj => h j (List.mem_cons_of_mem i hj))
    cases hp : p i with
    | false =>
      cases hq : q i with
      | false => simpa [List.filter_cons, hp, hq] using ih
      | true =>
        simp [List.filter_cons, hp, hq, ih]
        omega
    | true =>
      cases hq : q i with
      | false =>
        simp [List.filter_cons, hp, hq, ih]
        omega
      | true => exact absurd ⟨hp, hq⟩ hi

/-- Items whose path is nowhere in the listing filter to nothing. -/
theorem filter_pathIs_nil (fs : FS) (s : List String) :
    ∀ (I : List FileItem), s ∉ I.map FileItem.path →
      I.filter (pathIsOk fs s) = []
  | [], _ => rfl
  | i :: I, h => by
    have h1 : ¬(i.path = s) := fun e => h (by simp [← e])
    have h2 : s ∉ I.map FileItem.path := fun e => h (by simp [e])
    have hhead : pathIsOk fs s i = false := by simp [pathIsOk, h1]
    simp [List.filter_cons, hhead, filter_pathIs_nil fs s I h2]

/-- With pairwise-distinct listing paths, filtering the listing to one path
and summing sizes gives exactly that path's contribution. -/
theorem sum_filter_pathIs (fs : FS) (s : List String) :
    ∀ (I : List FileItem), (I.map FileItem.path).Nodup →
      ((I.filter (pathIsOk fs s)).map FileItem.size).sum = contribOf fs I s
  | [], _ => by simp [contribOf, findByPath]
  | i :: I, hnd => by
    rw [List.map_cons, List.nodup_cons] at hnd
    obtain ⟨hhead, htail⟩ := hnd
    by_cases hip : i.path = s
    · have hnil : I.filter (pathIsOk fs s) = [] :=
        filter_pathIs_nil fs s I (hip ▸ hhead)
      cases hok : fs.removeOk s with
      | true =>
        have hokip : fs.removeOk i.path = true := by rw [hip]; exact hok
        have hheadp : pathIsOk fs s i = true := by simp [pathIsOk, hip, hok]
        have hfilter : (i :: I).filter (pathIsOk fs s) = [i] := by
          simp [List.filter_cons, hheadp, hnil]
        rw [hfilter]
        simp [contribOf, findByPath, hip, hok]
      | false =>
        have hokip : fs.removeOk i.path = false := by rw [hip]; exact hok
        have hheadp : pathIsOk fs s i = false := by simp [pathIsOk, hokip]
        have hfilter : (i :: I).filter (pathIsOk fs s) = [] := by
          simp [List.filter_cons, hheadp, hnil]
        rw [hfilter]
        simp [contribOf, hok]
    · have hheadp : pathIsOk fs s i = false := by simp [pathIsOk, hip]
      have hfilter : (i :: I).filter (pathIsOk fs s) = I.filter (pathIsOk fs s) := by
        simp [List.filter_cons, hheadp]
      rw [hfilter, sum_filter_pathIs fs s I htail]
      simp [contribOf, findByPath, hip]

/-- With pairwise-distinct listing paths and a duplicate-free marked set, the
freed bytes equal the summed cached sizes of the listed items that were
marked and successfully removed. -/
theorem batchFreed_filter_sum (fs : FS) (I : List FileItem)
    (hI : (I.map FileItem.path).Nodup) (S : List (List String)) (hS : S.Nodup) :
    batchFreed fs S I = ((I.filter (pathInOk fs S)).map FileItem.size).sum := by
  induction S with
  | nil =>
    have hnil : I.filter (pathInOk fs []) = [] :=
      filter_false_nil (pathInOk fs []) (fun i => by simp [pathInOk]) I
    simp [batchFreed_eq, hnil]
  | cons s S ih =>
    obtain ⟨hs, hS'⟩ := List.nodup_cons.1 hS
    have hdisj : ∀ i ∈ I, ¬(pathIsOk fs s i = true ∧ pathInOk fs S i = true) := by
      rintro i _ ⟨h1, h2⟩
      simp [pathIsOk] at h1
      simp [pathInOk] at h2
      exact hs (h1.1 ▸ h2.1)
    have hsplit := sum_filter_orb FileItem.size (pathIsOk fs s) (pathInOk fs S) I hdisj
    have hcongr : I.filter (pathInOk fs (s :: S))
        = I.filter (fun i => pathIsOk fs s i || pathInOk fs S i) :=
      List.filter_congr (fun i _ => pathInOk_cons fs s S i)
    calc batchFreed fs (s :: S) I
        = contribOf fs I s + batchFreed fs S I := by simp [batchFreed_eq]
      _ = ((I.filter (pathIsOk fs s)).map FileItem.size).sum
            + ((I.filter (pathInOk fs S)).map FileItem.size).sum := by
          rw [← sum_filter_pathIs fs s I hI, ih hS']
      _ = ((I.filter (fun i => pathIsOk fs s i || pathInOk fs S i)).map
            FileItem.size).sum := hsplit.symm
      _ = ((I.filter (pathInOk fs (s :: S))).map FileItem.size).sum := by
          rw [hcongr]

/-- C2: with pairwise-distinct listing paths and a duplicate-free marked set,
deleting the marked set S from the detail listing I removes exactly the items
whose path is in S and whose removal succeeded; the reported freed bytes
equal the sum of the sizes of those successfully deleted items; and every
reported path is a marked path whose removal succeeded (failures are silently
omitted from the report). -/
theorem c2_batch_deletion (fs : FS) (S : List (List String)) (I : List FileItem)
    (hI : (I.map FileItem.path).Nodup) (hS : S.Nodup) :
    removeDeleted I (batchPaths fs S I)
      = I.filter (fun i => !(decide (i.path ∈ S ∧ fs.removeOk i.path = true))) ∧
    batchFreed fs S I
      = ((I.filter (fun i => decide (i.path ∈ S ∧ fs.removeOk i.path = true))).map
          FileItem.size).sum ∧
    ∀ p ∈ batchPaths fs S I, p ∈ S ∧ fs.removeOk p = true := by
  refine ⟨removeDeleted_batchPaths fs S I, ?_, ?_⟩
  · rw [batchFreed_filter_sum fs I hI S hS]
    refine congrArg List.sum (congrArg (List.map FileItem.size) ?_)
    exact List.filter_congr (fun i _ => (pathInOk_decide fs S i).symm)
  · intro p hp
    have := (mem_batchPaths fs S I p).1 hp
    exact ⟨this.1, this.2.1⟩

/-- C2 witness: marking p2 in the 10/20/5 listing and deleting the marked set
leaves p1 and p3 and frees 20 bytes. -/
theorem c2_batch_deletion_witness :
    ((listing2.map FileItem.path).Nodup ∧ ([["w", "p2"]] : List (List String)).Nodup) ∧
    (removeDeleted listing2 (batchPaths fsOk [["w", "p2"]] listing2)
      = listing2.filter
          (fun i => !(decide (i.path ∈ [["w", "p2"]] ∧ fsOk.removeOk i.path = true))) ∧
     batchFreed fsOk [["w", "p2"]] listing2
      = ((listing2.filter
            (fun i => decide (i.path ∈ [["w", "p2"]] ∧ fsOk.removeOk i.path = true))).map
          FileItem.size).sum ∧
     ∀ p ∈ batchPaths fsOk [["w", "p2"]] listing2,
       p ∈ [["w", "p2"]] ∧ fsOk.removeOk p = true) :=
  ⟨⟨by decide, by decide⟩,
   c2_batch_deletion fsOk [["w", "p2"]] listing2 (by decide) (by decide)⟩

/-! ## Results-map lemmas -/

/-- A successful lookup points at a stored entry. -/
theorem lookupCat_mem :
    ∀ (rs : List (String × ScanResult)) (c : String) (r : ScanResult),
      lookupCat rs c = some r → (c, r) ∈ rs
  | [], _, _, h => by simp [lookupCat] at h
  | (a, b) :: rest, c, r, h => by
    by_cases hac : a = c
    · subst hac
      simp [lookupCat] at h
      subst h
      exact List.mem_cons_self _ _
    · simp only [lookupCat, if_neg hac] at h
      exact List.mem_cons_of_mem _ (lookupCat_mem rest c r h)

/-- With duplicate-free keys, every stored entry is what lookup returns. -/
theorem lookupCat_eq_of_mem :
    ∀ (rs : List (String × ScanResult)), (rs.map Prod.fst).Nodup →
      ∀ (c : String) (r : ScanResult), (c, r) ∈ rs → lookupCat rs c = some r
  | [], _, _, _, h => absurd h (List.not_mem_nil _)
  | (a, b) :: rest, hnd, c, r, h => by
    rw [List.map_cons, List.nodup_cons] at hnd
    obtain ⟨hhead, htail⟩ := hnd
    rcases List.mem_cons.1 h with heq | hmem
    · rw [Prod.mk.injEq] at heq
      obtain ⟨rfl, rfl⟩ := heq
      simp [lookupCat]
    · have hac : a ≠ c := by
        intro e; subst e
        exact hhead (List.mem_map.2 ⟨(a, r), hmem, rfl⟩)
      simp only [lookupCat, if_neg hac]
      exact lookupCat_eq_of_mem rest htail c r hmem

/-- Updating the stored entry changes exactly what lookup returns. -/
theorem lookupCat_updateResults :
    ∀ (rs : List (String × ScanResult)) (c : String)
      (f : ScanResult → ScanResult) (r : ScanResult),
      lookupCat rs c = some r →
      lookupCat (updateResults rs c f) c = some (f r)
  | [], _, _, _, h => by simp [lookupCat] at h
  | (a, b) :: rest, c, f, r, h => by
    by_cases hac : a = c
    · subst hac
      simp [lookupCat] at h
      subst h
      simp [updateResults, lookupCat]
    · simp only [lookupCat, if_neg hac] at h
      simp only [updateResults, if_neg hac, lookupCat]
      exact lookupCat_updateResults rest c f r h

/-- Updating an absent key changes nothing. -/
theorem updateResults_not_mem :
    ∀ (rs : List (String × ScanResult)) (c : String)
      (f : ScanResult → ScanResult), c ∉ rs.map Prod.fst →
      updateResults rs c f = rs
  | [], _, _, _ => rfl
  | (a, b) :: rest, c, f, h => by
    have hac : a ≠ c := by
      intro e; exact h (by simp [e])
    have h2 : c ∉ rest.map Prod.fst := by
      intro e; exact h (by simp [e])
    simp [updateResults, hac, updateResults_not_mem rest c f h2]

/-- Membership in an updated results map. -/
theorem mem_updateResults :
    ∀ (rs : List (String × ScanResult)) (c : String)
      (f : ScanResult → ScanResult) (x : String × ScanResult),
      x ∈ updateResults rs c f ↔
        ∃ nr ∈ rs, x = (if nr.1 = c then (nr.1, f nr.2) else nr)
  | [], c, f, x => by simp [updateResults]
  | nr0 :: rest, c, f, x => by
    simp only [updateResults, List.mem_cons, mem_updateResults rest c f x]
    constructor
    · rintro (rfl | ⟨nr, hnr, rfl⟩)
      · exact ⟨nr0, Or.inl rfl, rfl⟩
      · exact ⟨nr, Or.inr hnr, rfl⟩
    · rintro ⟨nr, (rfl | hnr), rfl⟩
      · exact Or.inl rfl
      · exact Or.inr ⟨nr, hnr, rfl⟩

/-- With duplicate-free keys, updating one entry shifts the sum of stored
totals by exactly that entry's change. -/
theorem sum_totals_updateResults :
    ∀ (rs : List (String × ScanResult)), (rs.map Prod.fst).Nodup →
      ∀ (c : String) (f : ScanResult → ScanResult) (r : ScanResult),
        lookupCat rs c = some r →
        ((updateResults rs c f).map (fun nr => nr.2.total)).sum
          = (rs.map (fun nr => nr.2.total)).sum - r.total + (f r).total
  | [], _, c, f, r, h => by simp [lookupCat] at h
  | (a, b) :: rest, hnd, c, f, r, h => by
    rw [List.map_cons, List.nodup_cons] at hnd
    obtain ⟨hhead, htail⟩ := hnd
    by_cases hac : a = c
    · subst hac
      simp [lookupCat] at h
      subst h
      have hnm : updateResults rest a f = rest :=
        updateResults_not_mem rest a f hhead
      simp [updateResults, hnm]
      omega
    · simp only [lookupCat, if_neg hac] at h
      have ih := sum_totals_updateResults rest htail c f r h
      simp only [updateResults, if_neg hac, List.map_cons, List.sum_cons, ih]
      omega

/-- Keeping exactly the items a predicate rejects subtracts exactly the
accepted items' summed sizes. -/
theorem sum_filter_not_split (items : List FileItem) (q : FileItem → Bool) :
    ((items.filter (fun i => !(q i))).map FileItem.size).sum
      = (items.map FileItem.size).sum - ((items.filter q).map FileItem.size).sum := by
  induction items with
  | nil => simp
  | cons i items ih =>
    cases h : q i <;> simp [List.filter_cons, h, ih] <;> omega

/-- A deleted path never survives the removal loop. -/
theorem not_mem_removeDeleted (items : List FileItem) (paths : List (List String))
    (p : List String) (hp : p ∈ paths) :
    p ∉ (removeDeleted items paths).map FileItem.path := by
  intro hmem
  obtain ⟨i, hi, hip⟩ := List.mem_map.1 hmem
  simp only [removeDeleted] at hi
  have h2 := (List.mem_filter.1 hi).2
  simp at h2
  exact h2 (by rw [hip]; exact hp)

/-- A deleted path never survives the marked-set cleanup loop. -/
theorem not_mem_filter_paths (marked paths : List (List String)) (p : List String)
    (hp : p ∈ paths) : p ∉ marked.filter (fun q => !(decide (q ∈ paths))) := by
  intro hmem
  have h2 := (List.mem_filter.1 hmem).2
  simp at h2
  exact h2 hp

/-- The single-item removal loop never keeps the deleted path. -/
theorem not_mem_filter_pathEq (items : List FileItem) (p : List String) :
    p ∉ (items.filter (fun i => !(decide (i.path = p)))).map FileItem.path := by
  intro hmem
  obtain ⟨i, hi, hip⟩ := List.mem_map.1 hmem
  have h2 := (List.mem_filter.1 hi).2
  simp at h2
  exact h2 hip

/-- The single-item marked-set cleanup never keeps the deleted path. -/
theorem not_mem_filter_eq (marked : List (List String)) (p : List String) :
    p ∉ marked.filter (fun q => !(decide (q = p))) := by
  intro hmem
  simpa using (List.mem_filter.1 hmem).2

/-- Generic core of applyDeletion's category bookkeeping: replacing the
active category's items by those a predicate rejects while subtracting
exactly the accepted items' summed sizes keeps every stored total equal to
its items' size sum. -/
theorem categoryConsistent_updateResults
    (rs : List (String × ScanResult)) (hkeys : (rs.map Prod.fst).Nodup)
    (cat : String) (r : ScanResult) (hlookup : lookupCat rs cat = some r)
    (hcat : ∀ nr ∈ rs, nr.2.total = (nr.2.items.map FileItem.size).sum)
    (g : ScanResult → ScanResult) (q : FileItem → Bool) (freed : Int)
    (hgt : (g r).total = r.total - freed)
    (hgi : (g r).items = r.items.filter (fun i => !(q i)))
    (hfreed : freed = ((r.items.filter q).map FileItem.size).sum) :
    ∀ nr ∈ updateResults rs cat g,
      nr.2.total = (nr.2.items.map FileItem.size).sum := by
  have hrt : r.total = (r.items.map FileItem.size).sum :=
    hcat _ (lookupCat_mem rs cat r hlookup)
  intro nr hmem
  obtain ⟨nr0, hnr0, he⟩ := (mem_updateResults rs cat g nr).1 hmem
  by_cases hc0 : nr0.1 = cat
  · rw [if_pos hc0] at he
    have hl0 : lookupCat rs nr0.1 = some nr0.2 :=
      lookupCat_eq_of_mem rs hkeys nr0.1 nr0.2 (by rw [Prod.mk.eta]; exact hnr0)
    rw [hc0, hlookup] at hl0
    have hr : r = nr0.2 := Option.some.inj hl0
    subst he
    show (g nr0.2).total = ((g nr0.2).items.map FileItem.size).sum
    rw [← hr, hgt, hgi, sum_filter_not_split r.items q]
    omega
  · rw [if_neg hc0] at he
    subst he
    exact hcat _ hnr0

/-- Generic core of applyDeletion's grand-total bookkeeping: updating the
active category by anything that lowers its total by the freed bytes lowers
the sum of stored totals by exactly the freed bytes. -/
theorem grand_totals_updateResults
    (rs : List (String × ScanResult)) (hkeys : (rs.map Prod.fst).Nodup)
    (cat : String) (r : ScanResult) (hlookup : lookupCat rs cat = some r)
    (g : ScanResult → ScanResult) (freed : Int)
    (hgt : (g r).total = r.total - freed) :
    ((updateResults rs cat g).map (fun nr => nr.2.total)).sum
      = (rs.map (fun nr => nr.2.total)).sum - freed := by
  rw [sum_totals_updateResults rs hkeys cat g r hlookup, hgt]
  omega

/-- C1 (amended): for every applyDeletion applied while the state is still
the cleaning wait with a stored active category - a batch completion, or a
single-item completion with a non-empty path, for every reported freed value
(so also for the freed = 0 of a failed deletion) - no reported-deleted path
remains in the detail listing, the active category's item list, or the
selection set; and whenever the reported freed bytes equal the sum of the
cached sizes of the active category's items whose paths are reported
deleted, the category total again equals the sum of its remaining items'
sizes and the grand total again equals the sum of all category totals. -/
theorem c1_amended (m : Model) (freed : Int) (paths : List (List String))
    (p : List String) (r : ScanResult)
    (hstate : m.state = "cleaning")
    (hcc : m.currentCategory ≠ "")
    (hp : p ≠ [])
    (hkeys : (m.results.map Prod.fst).Nodup)
    (hlookup : lookupCat m.results m.currentCategory = some r)
    (hcat : categoryConsistent m)
    (hgrand : grandConsistent m) :
    noDeletedRemains (handleBatchCleanComplete m freed paths) paths ∧
    noDeletedRemains (handleCleanComplete m freed p) [p] ∧
    (freed = ((r.items.filter (fun i => decide (i.path ∈ paths))).map
        FileItem.size).sum →
      categoryConsistent (handleBatchCleanComplete m freed paths) ∧
      grandConsistent (handleBatchCleanComplete m freed paths)) ∧
    (freed = ((r.items.filter (fun i => decide (i.path = p))).map
        FileItem.size).sum →
      categoryConsistent (handleCleanComplete m freed p) ∧
      grandConsistent (handleCleanComplete m freed p)) := by
  have hresB : (handleBatchCleanComplete m freed paths).results
      = updateResults m.results m.currentCategory
          (fun r0 => { r0 with items := removeDeleted r0.items paths,
                               total := r0.total - freed }) := by
    simp [handleBatchCleanComplete, hstate, hcc]
  have htotB : (handleBatchCleanComplete m freed paths).totalSize
      = m.totalSize - freed := by
    simp [handleBatchCleanComplete, hstate]
  have hdetB : (handleBatchCleanComplete m freed paths).detailItems
      = removeDeleted m.detailItems paths := by
    simp [handleBatchCleanComplete, hstate]
  have hmarkB : (handleBatchCleanComplete m freed paths).markedItems
      = m.markedItems.filter (fun q => !(decide (q ∈ paths))) := by
    simp [handleBatchCleanComplete, hstate]
  have hccatB : (handleBatchCleanComplete m freed paths).currentCategory
      = m.currentCategory := by
    simp [handleBatchCleanComplete, hstate]
  have hresS : (handleCleanComplete m freed p).results
      = updateResults m.results m.currentCategory
          (fun r0 => { r0 with
            items := r0.items.filter (fun item => !(decide (item.path = p))),
            total := r0.total - freed }) := by
    simp [handleCleanComplete, hstate, hcc, hp]
  have htotS : (handleCleanComplete m freed p).totalSize
      = m.totalSize - freed := by
    simp [handleCleanComplete, hstate, hp]
  have hdetS : (handleCleanComplete m freed p).detailItems
      = m.detailItems.filter (fun item => !(decide (item.path = p))) := by
    simp [handleCleanComplete, hstate, hp]
  have hmarkS : (handleCleanComplete m freed p).markedItems
      = m.markedItems.filter (fun q => !(decide (q = p))) := by
    simp [handleCleanComplete, hstate, hp]
  have hccatS : (handleCleanComplete m freed p).currentCategory
      = m.currentCategory := by
    simp [handleCleanComplete, hstate, hp]
  have hg : m.totalSize = (m.results.map (fun nr => nr.2.total)).sum := hgrand
  refine ⟨?_, ?_, ?_, ?_⟩
  · intro pd hpd
    refine ⟨?_, ?_, ?_⟩
    · rw [hdetB]
      exact not_mem_removeDeleted m.detailItems paths pd hpd
    · show pd ∉ (activeResult (handleBatchCleanComplete m freed paths)).items.map
        FileItem.path
      unfold activeResult
      rw [hccatB, hresB,
        lookupCat_updateResults m.results m.currentCategory _ r hlookup]
      simp only [Option.getD_some]
      exact not_mem_removeDeleted r.items paths pd hpd
    · rw [hmarkB]
      exact not_mem_filter_paths m.markedItems paths pd hpd
  · intro pd hpd
    have hpd' : pd = p := by simpa using hpd
    subst hpd'
    refine ⟨?_, ?_, ?_⟩
    · rw [hdetS]
      exact not_mem_filter_pathEq m.detailItems pd
    · show pd ∉ (activeResult (handleCleanComplete m freed pd)).items.map
        FileItem.path
      unfold activeResult
      rw [hccatS, hresS,
        lookupCat_updateResults m.results m.currentCategory _ r hlookup]
      simp only [Option.getD_some]
      exact not_mem_filter_pathEq r.items pd
    · rw [hmarkS]
      exact not_mem_filter_eq m.markedItems pd
  · intro hfreed
    constructor
    · intro nr hmem
      rw [hresB] at hmem
      exact categoryConsistent_updateResults m.results hkeys m.currentCategory r
        hlookup hcat _ (fun i => decide (i.path ∈ paths)) freed rfl rfl hfreed
        nr hmem
    · show (handleBatchCleanComplete m freed paths).totalSize = _
      rw [htotB, hresB, grand_totals_updateResults m.results hkeys
        m.currentCategory r hlookup
        (fun r0 => { r0 with items := removeDeleted r0.items paths,
                             total := r0.total - freed }) freed rfl]
      omega
  · intro hfreed
    constructor
    · intro nr hmem
      rw [hresS] at hmem
      exact categoryConsistent_updateResults m.results hkeys m.currentCategory r
        hlookup hcat _ (fun i => decide (i.path = p)) freed rfl rfl hfreed
        nr hmem
    · show (handleCleanComplete m freed p).totalSize = _
      rw [htotS, hresS, grand_totals_updateResults m.results hkeys
        m.currentCategory r hlookup
        (fun r0 => { r0 with
          items := r0.items.filter (fun item => !(decide (item.path = p))),
          total := r0.total - freed }) freed rfl]
      omega

/-- C1 witness: against the consistent three-item category, both the batch
completion deleting p2 and the single-item completion deleting p2 (each
freeing exactly p2's cached 20 bytes) leave no trace of p2 and restore both
totals invariants. -/
theorem c1_amended_witness :
    noDeletedRemains (handleBatchCleanComplete mAm 20 [["c", "p2"]]) [["c", "p2"]] ∧
    noDeletedRemains (handleCleanComplete mAm 20 ["c", "p2"]) [["c", "p2"]] ∧
    (categoryConsistent (handleBatchCleanComplete mAm 20 [["c", "p2"]]) ∧
     grandConsistent (handleBatchCleanComplete mAm 20 [["c", "p2"]])) ∧
    (categoryConsistent (handleCleanComplete mAm 20 ["c", "p2"]) ∧
     grandConsistent (handleCleanComplete mAm 20 ["c", "p2"])) := by
  have h := c1_amended mAm 20 [["c", "p2"]] ["c", "p2"] rAm (by decide)
    (by decide) (by decide) (by decide) (by decide) (by decide) (by decide)
  exact ⟨h.1, h.2.1, h.2.2.1 (by decide), h.2.2.2 (by decide)⟩

end CleanCli
